import Mathlib

set_option maxHeartbeats 1000000

/-! Shallow embedding of the change-aware caching and batch-persist engine of the
audio-tools repository: `modules/integrity_check.py`, `modules/metadata_collector.py`,
`modules/file_tracker.py` and `modules/database_check.py`.  Machine state (the SQLite
tables, the filesystem, the advisory lock) is made explicit; the ffmpeg subprocess is
an oracle parameter. -/

/-- Association-list lookup, modelling `SELECT ... WHERE file_path = ?` on a table
keyed by `file_path` (the scan returns the first matching row). -/
def alookup {α : Type} : List (String × α) → String → Option α
  | [], _ => none
  | (k, v) :: rest, p => if k = p then some v else alookup rest p

/-- Association-list deletion, modelling `DELETE FROM ... WHERE file_path = ?`
(removes every row with the given key). -/
def aerase {α : Type} : List (String × α) → String → List (String × α)
  | [], _ => []
  | (k, v) :: rest, p => if k = p then aerase rest p else (k, v) :: aerase rest p

/-- Row of `passed_files` / `failed_files` (schema created by
integrity_check.initialize_database: file_path PRIMARY KEY, mtime REAL, status TEXT,
last_checked TEXT).  mtime is modelled as an integer timestamp; the code only ever
compares mtimes for equality. -/
structure Row where
  mtime : Int
  status : String
  lastChecked : String
deriving DecidableEq, Repr

/-- The two integrity tables of the store. -/
structure IntegrityDB where
  passed : List (String × Row)
  failed : List (String × Row)
deriving DecidableEq, Repr

/-- Filesystem model: which paths exist and their current modification time;
os.path.getmtime raises FileNotFoundError exactly on the paths not present. -/
abbrev Fs := List (String × Int)

def getmtime (fs : Fs) (p : String) : Option Int := alookup fs p

/-- The action strings returned by integrity_check.determine_action. -/
inductive CacheAction
  | useCached
  | runFFmpeg
  | fileNotFound
deriving DecidableEq, Repr

/-- The scan over ['passed_files', 'failed_files'] in determine_action: the first
table holding the path wins; failed_files is consulted only when passed_files has
no row for the path. -/
def lookupRow (db : IntegrityDB) (p : String) : Option Row :=
  match alookup db.passed p with
  | some r => some r
  | none => alookup db.failed p

/-- integrity_check.determine_action: returns (action, stored_status, current_mtime).
force_recheck short-circuits to RUN_FFMPEG; a missing file gives FILE_NOT_FOUND;
otherwise the stored row's mtime is compared with the current one. -/
def determineAction (fs : Fs) (db : IntegrityDB) (filePath : String)
    (forceRecheck : Bool) : CacheAction × Option String × Option Int :=
  if forceRecheck then
    match getmtime fs filePath with
    | some m => (.runFFmpeg, none, some m)
    | none => (.fileNotFound, none, none)
  else
    match getmtime fs filePath with
    | none => (.fileNotFound, none, none)
    | some m =>
      match lookupRow db filePath with
      | some row =>
          if row.mtime = m then (.useCached, some row.status, some m)
          else (.runFFmpeg, none, some m)
      | none => (.runFFmpeg, none, some m)

/-- Observable behavior of the ffmpeg subprocess on one file: it either runs to
completion after `seconds` seconds having written `stderr`, or the call raises. -/
inductive FFRun
  | runs (stderr : String) (seconds : Nat)
  | raises (msg : String)

/-- The ffmpeg oracle: per-path subprocess behavior. -/
abbrev FFBeh := String → FFRun

/-- The timeout passed to subprocess.run in check_single_file. -/
def ffmpegTimeout : Nat := 30

/-- integrity_check.check_single_file: runs ffmpeg with timeout=30; empty stderr
means PASSED; subprocess.TimeoutExpired and every other exception are converted
into a FAILED result, never propagated. -/
def checkSingleFile (beh : FFBeh) (filePath : String) : String × String × String :=
  match beh filePath with
  | .runs stderr seconds =>
      if ffmpegTimeout < seconds then ("FAILED", "FFmpeg timed out", filePath)
      else if stderr = "" then ("PASSED", "", filePath)
      else ("FAILED", stderr.trim, filePath)
  | .raises msg => ("FAILED", msg, filePath)

/-- Python values appearing in the tuples returned by process_file; `upd` is the
(file_path, current_mtime, status) update_info triple. -/
inductive PyVal
  | str (s : String)
  | pynone
  | upd (path : String) (m : Option Int) (status : String)
deriving DecidableEq, Repr

def pyOfOpt : Option String → PyVal
  | some s => .str s
  | none => .pynone

/-- integrity_check.process_file: the returned Python tuple is modelled as a list of
values, so that the smaller arity of the fallback branch is visible; the second
component counts ffmpeg invocations (check_single_file is called only on the
RUN_FFMPEG branch). -/
def processFile (beh : FFBeh) (fs : Fs) (db : IntegrityDB) (forceRecheck : Bool)
    (filePath : String) : List PyVal × Nat :=
  match determineAction fs db filePath forceRecheck with
  | (.useCached, storedStatus, _) =>
      ([.str "USE_CACHED", pyOfOpt storedStatus, .str "Cached result", .str filePath,
        .pynone], 0)
  | (.runFFmpeg, _, currentMtime) =>
      let r := checkSingleFile beh filePath
      ([.str "RUN_FFMPEG", .str r.1, .str r.2.1, .str filePath,
        .upd filePath currentMtime r.1], 1)
  | (.fileNotFound, _, _) =>
      ([.str "ERROR", .str "Unknown action", .str filePath, .pynone], 0)

/-- One results-list element built by check_integrity's collection loop. -/
structure Entry where
  path : String
  ok : Bool
  error : String
deriving DecidableEq, Repr

def strOf : PyVal → String
  | .str s => s
  | _ => ""

/-- One iteration of the result-collection loop in check_integrity: the tuple is
unpacked into five names (a ValueError when its arity differs, which propagates and
aborts the run), and an entry is appended on the USE_CACHED / RUN_FFMPEG branches. -/
def collectStep (t : List PyVal) : Except String (Option Entry) :=
  match t with
  | [a, b, c, d, _e] =>
      if a = PyVal.str "USE_CACHED" then
        .ok (some ⟨strOf d, decide (b = PyVal.str "PASSED"), ""⟩)
      else if a = PyVal.str "RUN_FFMPEG" then
        .ok (some ⟨strOf d, decide (b = PyVal.str "PASSED"),
              if b = PyVal.str "FAILED" then strOf c else ""⟩)
      else .ok none
  | l =>
      .error ("ValueError: not enough values to unpack (expected 5, got "
        ++ toString l.length ++ ")")

/-- The dispatch-and-collect phase of check_integrity: process_file runs for every
file with force_recheck left at its default False (the check command never sets it),
and the loop accumulates entries and the total number of ffmpeg invocations. -/
def runLoop (beh : FFBeh) (fs : Fs) (db : IntegrityDB) :
    List String → Except String (List Entry × Nat)
  | [] => .ok ([], 0)
  | f :: rest =>
    let pr := processFile beh fs db false f
    match collectStep pr.1 with
    | .error e => .error e
    | .ok oe =>
      match runLoop beh fs db rest with
      | .error e => .error e
      | .ok (es, c) =>
          .ok ((match oe with | some e => e :: es | none => es), pr.2 + c)

def statusStr (ok : Bool) : String := if ok then "PASSED" else "FAILED"

/-- One iteration of the batch-update loop in check_integrity: re-stat the file
(os.path.getmtime raises when it vanished), DELETE the path from both tables, then
INSERT the fresh row into the table matching the result. -/
def persistRow (fs : Fs) (ts : String) (db : IntegrityDB) (e : Entry) :
    Except String IntegrityDB :=
  match getmtime fs e.path with
  | none => .error ("FileNotFoundError: " ++ e.path)
  | some m =>
    let p1 := aerase db.passed e.path
    let f1 := aerase db.failed e.path
    let row : Row := ⟨m, statusStr e.ok, ts⟩
    if e.ok then .ok ⟨p1 ++ [(e.path, row)], f1⟩
    else .ok ⟨p1, f1 ++ [(e.path, row)]⟩

/-- The batch-update loop over all results, sharing the single timestamp computed
once before the loop; the commit happens after the whole loop. -/
def persistResults (fs : Fs) (ts : String) (db : IntegrityDB) :
    List Entry → Except String IntegrityDB
  | [] => .ok db
  | e :: rest =>
    match persistRow fs ts db e with
    | .error s => .error s
    | .ok db1 => persistResults fs ts db1 rest

/-- Outcome of one run of the check command. -/
structure RunOut where
  results : List Entry
  dbAfter : IntegrityDB
  ffmpegCalls : Nat
deriving Repr

/-- integrity_check.check_integrity on a list of target files: dispatch and collect,
then the single locked batch update; an uncaught exception in either phase aborts
the run. -/
def checkIntegrityRun (beh : FFBeh) (fs : Fs) (ts : String) (db : IntegrityDB)
    (files : List String) : Except String RunOut :=
  match runLoop beh fs db files with
  | .error e => .error e
  | .ok (es, c) =>
    match persistResults fs ts db es with
    | .error e => .error e
    | .ok db1 => .ok ⟨es, db1, c⟩

/-- Summary count `ok_count` printed by check_integrity. -/
def okCount (l : List Entry) : Nat := l.countP (fun e => e.ok)

/-- Summary count `error_count` printed by check_integrity. -/
def errCount (l : List Entry) : Nat := l.countP (fun e => !e.ok)

/-- Arguments registered by integrity_check.register_command for the check command
(positional path plus the two optional flags; there is no recheck flag). -/
def checkCommandArguments : List String := ["path", "--verbose", "--workers"]

/-- Arguments registered by metadata_collector.register_command for the metadata
command. -/
def metadataCommandArguments : List String :=
  ["path", "--verbose", "--summary", "--recheck", "--export", "--workers"]

/-- The action strings returned by metadata_collector.determine_action. -/
inductive MetaAction
  | useCached
  | extractMetadata
  | fileNotFound
deriving DecidableEq, Repr

/-- metadata_collector.determine_action: the stored last_checked timestamp (an ISO
datetime, modelled as an integer on the same axis as mtimes) is compared against the
file's current mtime; a stored row is honoured only when force_recheck is unset. -/
def determineActionMeta (fs : Fs) (mdb : List (String × Int)) (filePath : String)
    (forceRecheck : Bool) : MetaAction × Option Int :=
  match getmtime fs filePath with
  | none => (.fileNotFound, none)
  | some m =>
    match alookup mdb filePath with
    | some lastChecked =>
        if forceRecheck then (.extractMetadata, some m)
        else if m ≤ lastChecked then (.useCached, none)
        else (.extractMetadata, some m)
    | none => (.extractMetadata, some m)

/-- Events on the advisory lock and the store, in program order. -/
inductive Ev
  | acquire
  | release
  | backup
  | commit
  | query (table : String) (path : String)
  | del (table : String) (path : String)
  | ins (table : String) (path : String) (r : Row)
  | write (table : String) (path : String)
deriving DecidableEq, Repr

/-- Net number of lock acquisitions minus releases left open by a trace. -/
def lockDepth : List Ev → Int
  | [] => 0
  | Ev.acquire :: l => lockDepth l + 1
  | Ev.release :: l => lockDepth l - 1
  | _ :: l => lockDepth l

/-- Number of transaction commits in a trace. -/
def commitCount : List Ev → Nat
  | [] => 0
  | Ev.commit :: l => commitCount l + 1
  | _ :: l => commitCount l

/-- SQL effects of the batch-update loop body of check_integrity: three statements
per result row, one commit after the whole loop; a FileNotFoundError raised by the
re-stat aborts the body before any commit. -/
def persistBodyEvents (fs : Fs) (ts : String) : List Entry → List Ev
  | [] => [Ev.commit]
  | e :: rest =>
    match getmtime fs e.path with
    | none => []
    | some m =>
        Ev.del "passed_files" e.path :: Ev.del "failed_files" e.path ::
        Ev.ins (if e.ok then "passed_files" else "failed_files") e.path
          ⟨m, statusStr e.ok, ts⟩ ::
        persistBodyEvents fs ts rest

/-- Lock and store event trace of the batch writer in check_integrity: acquire the
advisory lock, back up the store file, run the update loop plus the single commit,
and release the lock in the finally block even if the body raised. -/
def checkIntegrityWriteEvents (fs : Fs) (ts : String) (es : List Entry) : List Ev :=
  Ev.acquire :: Ev.backup :: (persistBodyEvents fs ts es ++ [Ev.release])

/-- Transaction state of the store: the durable contents plus the connection's
uncommitted view. -/
structure TxState where
  durable : IntegrityDB
  staged : IntegrityDB

/-- Apply a table-level mutation to the integrity table named by the SQL statement. -/
def applyTable (g : List (String × Row) → List (String × Row)) (t : String)
    (db : IntegrityDB) : IntegrityDB :=
  if t = "passed_files" then { db with passed := g db.passed }
  else if t = "failed_files" then { db with failed := g db.failed }
  else db

/-- SQLite transaction semantics for the integrity tables: DML mutates only the
uncommitted view, COMMIT makes the view durable, and everything else leaves the
store untouched. -/
def applyEv (s : TxState) : Ev → TxState
  | .commit => ⟨s.staged, s.staged⟩
  | .del t p => { s with staged := applyTable (fun l => aerase l p) t s.staged }
  | .ins t p r => { s with staged := applyTable (fun l => l ++ [(p, r)]) t s.staged }
  | _ => s

def applyEvs (s : TxState) (l : List Ev) : TxState := l.foldl applyEv s

/-- Lock events of metadata_collector.determine_action: one locked query per file. -/
def determineActionMetaEvents (fs : Fs) (filePath : String) : List Ev :=
  match getmtime fs filePath with
  | none => []
  | some _ => [Ev.acquire, Ev.query "audio_metadata" filePath, Ev.release]

/-- Lock and write event trace of collect_metadata's verbose loop: every file's
decision runs under its own lock acquisition, and every successfully extracted file
is INSERT OR REPLACEd and committed in its own locked section; no backup of the
store is ever taken.  `extractErr` tells which files make extract_metadata report
an error (those are counted, not written). -/
def collectMetadataVerboseEvents (fs : Fs) (mdb : List (String × Int))
    (extractErr : String → Bool) (forceRecheck : Bool) : List String → List Ev
  | [] => []
  | f :: rest =>
    determineActionMetaEvents fs f ++
    (match determineActionMeta fs mdb f forceRecheck with
     | (.extractMetadata, _) =>
        if extractErr f then []
        else [Ev.acquire, Ev.write "audio_metadata" f, Ev.commit, Ev.release]
     | _ => []) ++
    collectMetadataVerboseEvents fs mdb extractErr forceRecheck rest

/-- Lock and write event trace of collect_metadata's concurrent-path batch update:
one locked executemany plus a single commit when any rows were extracted; no backup
of the store is taken on this path either. -/
def collectMetadataBatchWriteEvents (extracted : List String) : List Ev :=
  match extracted with
  | [] => []
  | l => Ev.acquire :: (l.map (fun f => Ev.write "audio_metadata" f) ++ [Ev.commit, Ev.release])

/-- Lock and store event trace of integrity_check.cleanup_database: delete the rows
whose paths are gone from disk, one commit, lock released in the finally block;
sqlOk=false models a sqlite exception raised inside the try block. -/
def cleanupEvents (sqlOk : Bool) (fs : Fs) (db : IntegrityDB) : List Ev :=
  Ev.acquire ::
    ((if sqlOk then
        ((db.passed.filter (fun pr => (getmtime fs pr.1).isNone)).map
            (fun pr => Ev.del "passed_files" pr.1) ++
         (db.failed.filter (fun pr => (getmtime fs pr.1).isNone)).map
            (fun pr => Ev.del "failed_files" pr.1)) ++ [Ev.commit]
      else []) ++ [Ev.release])

/-- integrity_check.determine_action together with its lock events; sqlOk=false
models a sqlite exception inside the try block, after which the finally clause
still releases the lock and the exception propagates. -/
def determineActionGuarded (sqlOk : Bool) (fs : Fs) (db : IntegrityDB)
    (filePath : String) (forceRecheck : Bool) :
    List Ev × Except String (CacheAction × Option String × Option Int) :=
  if forceRecheck then ([], .ok (determineAction fs db filePath true))
  else
    match getmtime fs filePath with
    | none => ([], .ok (.fileNotFound, none, none))
    | some _ =>
      if sqlOk then
        (Ev.acquire :: Ev.query "passed_files" filePath ::
          ((match alookup db.passed filePath with
            | some _ => []
            | none => [Ev.query "failed_files" filePath]) ++ [Ev.release]),
         .ok (determineAction fs db filePath false))
      else ([Ev.acquire, Ev.release], .error "sqlite3.OperationalError")

/-- The action strings returned by file_tracker.track_file. -/
inductive TrackAction
  | added
  | updated
  | unchanged
  | fileNotFound
deriving DecidableEq, Repr

/-- file_tracker.track_file together with its lock events; sqlOk=false models a
sqlite exception inside the try block, released by the finally clause. -/
def trackFileGuarded (sqlOk : Bool) (fs : Fs) (tdb : List (String × Int))
    (filePath : String) : List Ev × Except String TrackAction :=
  match getmtime fs filePath with
  | none => ([], .ok .fileNotFound)
  | some m =>
    if sqlOk then
      match alookup tdb filePath with
      | some sm =>
          if sm = m then
            ([Ev.acquire, Ev.query "file_tracker" filePath, Ev.release], .ok .unchanged)
          else
            ([Ev.acquire, Ev.query "file_tracker" filePath,
              Ev.write "file_tracker" filePath, Ev.commit, Ev.release], .ok .updated)
      | none =>
          ([Ev.acquire, Ev.query "file_tracker" filePath,
            Ev.write "file_tracker" filePath, Ev.commit, Ev.release], .ok .added)
    else ([Ev.acquire, Ev.release], .error "sqlite3.OperationalError")

/-- File contents on disk, path to byte string. -/
abbrev Contents := List (String × String)

/-- database_check.calculate_file_hash: streams the file chunk by chunk and returns
the digest of its full contents, None when the file is missing or unreadable; the
digest function itself (MD5) is a parameter of the model. -/
def calculateFileHash (digest : String → String) (c : Contents) (p : String) :
    Option String :=
  (alookup c p).map digest

/-- The result entry that check_integrity's collection loop produces for one file
whose tuple unpacks cleanly (derived from process_file and the loop body). -/
def entryFor (beh : FFBeh) (fs : Fs) (db : IntegrityDB) (f : String) : Entry :=
  match collectStep (processFile beh fs db false f).1 with
  | .ok (some e) => e
  | _ => ⟨f, false, ""⟩

/-- Number of ffmpeg invocations process_file makes for one file of the check
command. -/
def callsFor (beh : FFBeh) (fs : Fs) (db : IntegrityDB) (f : String) : Nat :=
  (processFile beh fs db false f).2

/-- Cross-table uniqueness: no path has a live row in both passed_files and
failed_files; determine_action's first-table-wins scan is unambiguous under it. -/
def crossDisjoint (db : IntegrityDB) : Prop :=
  ∀ p, (alookup db.passed p).isSome → alookup db.failed p = none

/-- Per-file outcome of metadata_collector.process_file: the 2-tuple's action tag
with its payload (USE_CACHED / EXTRACTED with the row's last_checked stamp /
ERROR with its message). -/
inductive MetaFileResult
  | usedCache
  | extractedData (lastChecked : Int)
  | errorResult (msg : String)
deriving DecidableEq, Repr

/-- Observable behavior of extract_metadata on one file: how many external ffprobe
invocations it makes (get_m4a_codec is called for .m4a containers), and whether it
reports an error (e.g. the 'Unsupported file type' branch taken by every container
outside the MP3/FLAC/MP4 isinstance chain, such as .ogg). -/
structure ExtractBeh where
  probeCalls : String → Nat
  errors : String → Option String

/-- metadata_collector.process_file: a cached decision returns immediately;
the extract branch runs extract_metadata (spending its ffprobe calls) and an error
result is returned without any data to persist; a vanished file falls through to
the ('ERROR', 'Unknown action') return.  The second component counts the external
ffprobe invocations made. -/
def processFileMeta (beh : ExtractBeh) (fs : Fs) (now : Int)
    (mdb : List (String × Int)) (force : Bool) (f : String) : MetaFileResult × Nat :=
  match determineActionMeta fs mdb f force with
  | (.useCached, _) => (.usedCache, 0)
  | (.extractMetadata, _) =>
      match beh.errors f with
      | some msg => (.errorResult msg, beh.probeCalls f)
      | none => (.extractedData now, beh.probeCalls f)
  | (.fileNotFound, _) => (.errorResult "Unknown action", 0)

/-- The collection loop of collect_metadata: per-file counts of extracted, cached
and error outcomes, the extracted rows to persist, and the total ffprobe calls. -/
def collectMetadataLoop (beh : ExtractBeh) (fs : Fs) (now : Int)
    (mdb : List (String × Int)) (force : Bool) :
    List String → Nat × Nat × Nat × List (String × Int) × Nat
  | [] => (0, 0, 0, [], 0)
  | f :: rest =>
    let (r, c) := processFileMeta beh fs now mdb force f
    let (e, ca, er, xs, pc) := collectMetadataLoop beh fs now mdb force rest
    match r with
    | .usedCache => (e, ca + 1, er, xs, c + pc)
    | .extractedData lc => (e + 1, ca, er, (f, lc) :: xs, c + pc)
    | .errorResult _ => (e, ca, er + 1, xs, c + pc)

/-- The batch update of collect_metadata: INSERT OR REPLACE every extracted row
(keyed by file_path) into audio_metadata. -/
def upsertMeta (mdb : List (String × Int)) : List (String × Int) → List (String × Int)
  | [] => mdb
  | (f, lc) :: rest => upsertMeta (aerase mdb f ++ [(f, lc)]) rest

/-- metadata_collector.cleanup_database: drop the rows whose paths are gone from
disk (collect_metadata calls it after every batch). -/
def cleanupMetaDb (fs : Fs) (mdb : List (String × Int)) : List (String × Int) :=
  mdb.filter (fun pr => (getmtime fs pr.1).isSome)

/-- Summary of one run of the metadata command: the printed Extracted / Cached /
Errors counts, the audio_metadata table after batch update and cleanup, and the
number of external ffprobe invocations made. -/
structure MetaRunOut where
  extractedCount : Nat
  cachedCount : Nat
  errorCount : Nat
  mdbAfter : List (String × Int)
  probeCalls : Nat
deriving DecidableEq, Repr

/-- metadata_collector.collect_metadata on a list of target files: process every
file against the same starting table, batch-upsert the extracted rows, then run
the cleanup pass. -/
def collectMetadataRun (beh : ExtractBeh) (fs : Fs) (now : Int)
    (mdb : List (String × Int)) (force : Bool) (files : List String) : MetaRunOut :=
  match collectMetadataLoop beh fs now mdb force files with
  | (e, ca, er, xs, pc) => ⟨e, ca, er, cleanupMetaDb fs (upsertMeta mdb xs), pc⟩

theorem alookup_aerase_self {α : Type} (t : List (String × α)) (p : String) :
    alookup (aerase t p) p = none := by
  induction t with
  | nil => rfl
  | cons kv rest ih =>
    obtain ⟨k, v⟩ := kv
    by_cases h : k = p
    · simp [aerase, h, ih]
    · simp [aerase, alookup, h, ih]

theorem alookup_aerase_ne {α : Type} (t : List (String × α)) {p q : String} (h : p ≠ q) :
    alookup (aerase t p) q = alookup t q := by
  induction t with
  | nil => rfl
  | cons kv rest ih =>
    obtain ⟨k, v⟩ := kv
    by_cases hk : k = p
    · subst hk
      simp [aerase, alookup, h, ih]
    · simp [aerase, alookup, hk, ih]

theorem alookup_append_ne {α : Type} (t : List (String × α)) (r : α) {p q : String}
    (h : p ≠ q) : alookup (t ++ [(p, r)]) q = alookup t q := by
  induction t with
  | nil => simp [alookup, h]
  | cons kv rest ih =>
    obtain ⟨k, v⟩ := kv
    simp [alookup, ih]

theorem alookup_aerase_append_self {α : Type} (t : List (String × α)) (p : String)
    (r : α) : alookup (aerase t p ++ [(p, r)]) p = some r := by
  induction t with
  | nil => simp [alookup]
  | cons kv rest ih =>
    obtain ⟨k, v⟩ := kv
    by_cases hk : k = p
    · simp [aerase, hk, ih]
    · simp [aerase, alookup, hk, ih]

theorem determineAction_cached (fs : Fs) (db : IntegrityDB) (f : String) (m : Int)
    (row : Row) (hm : getmtime fs f = some m) (hr : lookupRow db f = some row)
    (heq : row.mtime = m) :
    determineAction fs db f false = (.useCached, some row.status, some m) := by
  simp [determineAction, hm, hr, heq]

theorem determineAction_fresh (fs : Fs) (db : IntegrityDB) (f : String) (m : Int)
    (row : Row) (hm : getmtime fs f = some m) (hr : lookupRow db f = some row)
    (hne : row.mtime ≠ m) :
    determineAction fs db f false = (.runFFmpeg, none, some m) := by
  simp [determineAction, hm, hr, hne]

theorem determineAction_norow (fs : Fs) (db : IntegrityDB) (f : String) (m : Int)
    (hm : getmtime fs f = some m) (hr : lookupRow db f = none) :
    determineAction fs db f false = (.runFFmpeg, none, some m) := by
  simp [determineAction, hm, hr]

theorem determineAction_missing (fs : Fs) (db : IntegrityDB) (f : String)
    (force : Bool) (hm : getmtime fs f = none) :
    determineAction fs db f force = (.fileNotFound, none, none) := by
  cases force <;> simp [determineAction, hm]

theorem determineAction_force (fs : Fs) (db : IntegrityDB) (f : String) (m : Int)
    (hm : getmtime fs f = some m) :
    determineAction fs db f true = (.runFFmpeg, none, some m) := by
  simp [determineAction, hm]

theorem statusStr_decide (b : Bool) : decide (statusStr b = "PASSED") = b := by
  cases b <;> rfl

theorem entryFor_cached (beh : FFBeh) (fs : Fs) (db : IntegrityDB) (f : String)
    (m : Int) (row : Row) (hm : getmtime fs f = some m)
    (hr : lookupRow db f = some row) (heq : row.mtime = m) :
    entryFor beh fs db f = ⟨f, decide (row.status = "PASSED"), ""⟩ ∧
    callsFor beh fs db f = 0 ∧
    collectStep (processFile beh fs db false f).1
      = Except.ok (some ⟨f, decide (row.status = "PASSED"), ""⟩) := by
  have hda := determineAction_cached fs db f m row hm hr heq
  have hpf : processFile beh fs db false f
      = ([.str "USE_CACHED", .str row.status, .str "Cached result", .str f, .pynone], 0) := by
    unfold processFile
    rw [hda]
    rfl
  have hcs : collectStep (processFile beh fs db false f).1
      = Except.ok (some ⟨f, decide (row.status = "PASSED"), ""⟩) := by
    rw [hpf]
    simp [collectStep, strOf]
  refine ⟨?_, ?_, hcs⟩
  · unfold entryFor
    rw [hcs]
  · unfold callsFor
    rw [hpf]

theorem entryFor_fresh (beh : FFBeh) (fs : Fs) (db : IntegrityDB) (f : String)
    (m : Int) (hda : determineAction fs db f false = (.runFFmpeg, none, some m)) :
    entryFor beh fs db f
      = ⟨f, decide ((checkSingleFile beh f).1 = "PASSED"),
          if (checkSingleFile beh f).1 = "FAILED" then (checkSingleFile beh f).2.1 else ""⟩ ∧
    callsFor beh fs db f = 1 ∧
    collectStep (processFile beh fs db false f).1
      = Except.ok (some ⟨f, decide ((checkSingleFile beh f).1 = "PASSED"),
          if (checkSingleFile beh f).1 = "FAILED" then (checkSingleFile beh f).2.1 else ""⟩) := by
  have hpf : processFile beh fs db false f
      = ([.str "RUN_FFMPEG", .str (checkSingleFile beh f).1, .str (checkSingleFile beh f).2.1,
          .str f, .upd f (some m) (checkSingleFile beh f).1], 1) := by
    unfold processFile
    rw [hda]
  have hcs : collectStep (processFile beh fs db false f).1
      = Except.ok (some ⟨f, decide ((checkSingleFile beh f).1 = "PASSED"),
          if (checkSingleFile beh f).1 = "FAILED" then (checkSingleFile beh f).2.1 else ""⟩) := by
    rw [hpf]
    simp [collectStep, strOf]
  refine ⟨?_, ?_, hcs⟩
  · unfold entryFor
    rw [hcs]
  · unfold callsFor
    rw [hpf]

theorem entryFor_path (beh : FFBeh) (fs : Fs) (db : IntegrityDB) (f : String)
    (m : Int) (hm : getmtime fs f = some m) :
    (entryFor beh fs db f).path = f ∧
    collectStep (processFile beh fs db false f).1 = Except.ok (some (entryFor beh fs db f)) := by
  cases hr : lookupRow db f with
  | some row =>
    by_cases heq : row.mtime = m
    · obtain ⟨h1, _, h3⟩ := entryFor_cached beh fs db f m row hm hr heq
      rw [h1]
      exact ⟨rfl, h3⟩
    · obtain ⟨h1, _, h3⟩ := entryFor_fresh beh fs db f m
        (determineAction_fresh fs db f m row hm hr heq)
      rw [h1]
      exact ⟨rfl, h3⟩
  | none =>
    obtain ⟨h1, _, h3⟩ := entryFor_fresh beh fs db f m
      (determineAction_norow fs db f m hm hr)
    rw [h1]
    exact ⟨rfl, h3⟩

theorem runLoop_ok (beh : FFBeh) (fs : Fs) (db : IntegrityDB) : ∀ (files : List String),
    (∀ f ∈ files, (getmtime fs f).isSome) →
    runLoop beh fs db files
      = Except.ok (files.map (entryFor beh fs db), (files.map (callsFor beh fs db)).sum) := by
  intro files
  induction files with
  | nil => intro _; rfl
  | cons f rest ih =>
    intro hex
    obtain ⟨m, hm⟩ := Option.isSome_iff_exists.mp (hex f (by simp))
    have hstep := (entryFor_path beh fs db f m hm).2
    show (match collectStep (processFile beh fs db false f).1 with
      | .error e => Except.error e
      | .ok oe =>
        match runLoop beh fs db rest with
        | .error e => Except.error e
        | .ok (es, c) =>
            Except.ok ((match oe with | some e => e :: es | none => es),
              (processFile beh fs db false f).2 + c)) = _
    rw [hstep, ih (fun g hg => hex g (by simp [hg]))]
    simp [callsFor]

theorem persistRow_spec (fs : Fs) (ts : String) (db : IntegrityDB) (e : Entry)
    (m : Int) (hm : getmtime fs e.path = some m) :
    ∃ db1, persistRow fs ts db e = Except.ok db1 ∧
      lookupRow db1 e.path = some ⟨m, statusStr e.ok, ts⟩ ∧
      (∀ q, q ≠ e.path → lookupRow db1 q = lookupRow db q) := by
  unfold persistRow
  rw [hm]
  cases hok : e.ok
  · simp only [hok, Bool.false_eq_true, if_false]
    refine ⟨⟨aerase db.passed e.path,
        aerase db.failed e.path ++ [(e.path, ⟨m, statusStr false, ts⟩)]⟩, rfl, ?_, ?_⟩
    · unfold lookupRow
      simp only [alookup_aerase_self, alookup_aerase_append_self]
    · intro q hq
      unfold lookupRow
      rw [alookup_append_ne _ _ (Ne.symm hq), alookup_aerase_ne _ (Ne.symm hq),
        alookup_aerase_ne _ (Ne.symm hq)]
  · simp only [hok, if_true]
    refine ⟨⟨aerase db.passed e.path ++ [(e.path, ⟨m, statusStr true, ts⟩)],
        aerase db.failed e.path⟩, rfl, ?_, ?_⟩
    · unfold lookupRow
      simp only [alookup_aerase_append_self]
    · intro q hq
      unfold lookupRow
      rw [alookup_append_ne _ _ (Ne.symm hq), alookup_aerase_ne _ (Ne.symm hq),
        alookup_aerase_ne _ (Ne.symm hq)]

theorem persistResults_ok (fs : Fs) (ts : String) : ∀ (es : List Entry) (db : IntegrityDB),
    (∀ e ∈ es, (getmtime fs e.path).isSome) →
    ∃ db1, persistResults fs ts db es = Except.ok db1 := by
  intro es
  induction es with
  | nil => intro db _; exact ⟨db, rfl⟩
  | cons e rest ih =>
    intro db hex
    obtain ⟨m, hm⟩ := Option.isSome_iff_exists.mp (hex e (by simp))
    obtain ⟨db1, h1, _, _⟩ := persistRow_spec fs ts db e m hm
    obtain ⟨db2, h2⟩ := ih db1 (fun x hx => hex x (by simp [hx]))
    exact ⟨db2, by unfold persistResults; rw [h1]; exact h2⟩

theorem persistResults_untouched (fs : Fs) (ts : String) : ∀ (es : List Entry)
    (db db' : IntegrityDB) (q : String), persistResults fs ts db es = Except.ok db' →
    (∀ e ∈ es, e.path ≠ q) → lookupRow db' q = lookupRow db q := by
  intro es
  induction es with
  | nil =>
    intro db db' q h _
    unfold persistResults at h
    injection h with h
    rw [h]
  | cons e rest ih =>
    intro db db' q h hne
    unfold persistResults at h
    cases hpr : persistRow fs ts db e with
    | error s => rw [hpr] at h; exact absurd h (by simp)
    | ok db1 =>
      rw [hpr] at h
      cases hm : getmtime fs e.path with
      | none => unfold persistRow at hpr; rw [hm] at hpr; exact absurd hpr (by simp)
      | some m =>
        obtain ⟨db1', h1, _, h3⟩ := persistRow_spec fs ts db e m hm
        rw [hpr] at h1
        injection h1 with h1
        subst h1
        rw [ih db1 db' q h (fun x hx => hne x (by simp [hx]))]
        exact h3 q (Ne.symm (hne e (by simp)))

theorem persistResults_touched (fs : Fs) (ts : String) : ∀ (es : List Entry)
    (db db' : IntegrityDB), persistResults fs ts db es = Except.ok db' →
    (es.map Entry.path).Nodup →
    ∀ e ∈ es, ∀ m : Int, getmtime fs e.path = some m →
      lookupRow db' e.path = some ⟨m, statusStr e.ok, ts⟩ := by
  intro es
  induction es with
  | nil => intro db db' _ _ e he; exact absurd he (by simp)
  | cons a rest ih =>
    intro db db' h hnd e he m hm
    unfold persistResults at h
    cases hpr : persistRow fs ts db a with
    | error s => rw [hpr] at h; exact absurd h (by simp)
    | ok db1 =>
      rw [hpr] at h
      rcases List.mem_cons.mp he with he | he
      · subst he
        obtain ⟨db1', h1, h2, _⟩ := persistRow_spec fs ts db e m hm
        rw [hpr] at h1
        injection h1 with h1
        subst h1
        have hnot : ∀ x ∈ rest, x.path ≠ e.path := by
          intro x hx hcontra
          have : e.path ∈ rest.map Entry.path := List.mem_map.mpr ⟨x, hx, hcontra⟩
          exact (List.nodup_cons.mp hnd).1 this
        rw [persistResults_untouched fs ts rest db1 db' e.path h hnot]
        exact h2
      · exact ih db1 db' h (List.nodup_cons.mp hnd).2 e he m hm

theorem persistRow_crossDisjoint (fs : Fs) (ts : String) (db db1 : IntegrityDB)
    (e : Entry) (hdb : crossDisjoint db) (h : persistRow fs ts db e = Except.ok db1) :
    crossDisjoint db1 := by
  cases hm : getmtime fs e.path with
  | none => unfold persistRow at h; rw [hm] at h; exact absurd h (by simp)
  | some m =>
    unfold persistRow at h
    rw [hm] at h
    cases hok : e.ok <;> rw [hok] at h <;> simp only [if_true, if_false,
      Bool.false_eq_true, Except.ok.injEq] at h <;> subst h
    · intro q hq
      by_cases hqe : q = e.path
      · subst hqe
        rw [alookup_aerase_self] at hq
        exact absurd hq (by simp)
      · simp only [alookup_aerase_ne _ (fun hc => hqe hc.symm)] at hq
        rw [alookup_append_ne _ _ (fun hc => hqe hc.symm),
          alookup_aerase_ne _ (fun hc => hqe hc.symm)]
        exact hdb q hq
    · intro q hq
      by_cases hqe : q = e.path
      · subst hqe
        exact alookup_aerase_self _ _
      · rw [alookup_append_ne _ _ (fun hc => hqe hc.symm),
          alookup_aerase_ne _ (fun hc => hqe hc.symm)] at hq
        rw [alookup_aerase_ne _ (fun hc => hqe hc.symm)]
        exact hdb q hq

theorem persistResults_crossDisjoint (fs : Fs) (ts : String) : ∀ (es : List Entry)
    (db db' : IntegrityDB), crossDisjoint db →
    persistResults fs ts db es = Except.ok db' → crossDisjoint db' := by
  intro es
  induction es with
  | nil =>
    intro db db' hdb h
    unfold persistResults at h
    injection h with h
    rwa [← h]
  | cons e rest ih =>
    intro db db' hdb h
    unfold persistResults at h
    cases hpr : persistRow fs ts db e with
    | error s => rw [hpr] at h; exact absurd h (by simp)
    | ok db1 =>
      rw [hpr] at h
      exact ih db1 db' (persistRow_crossDisjoint fs ts db db1 e hdb hpr) h

theorem lockDepth_append (l1 l2 : List Ev) :
    lockDepth (l1 ++ l2) = lockDepth l1 + lockDepth l2 := by
  induction l1 with
  | nil => simp [lockDepth]
  | cons e t ih => cases e <;> simp [lockDepth, ih] <;> ring

theorem lockDepth_noLocks (l : List Ev)
    (h : ∀ e ∈ l, e ≠ Ev.acquire ∧ e ≠ Ev.release) : lockDepth l = 0 := by
  induction l with
  | nil => rfl
  | cons e t ih =>
    have ht : lockDepth t = 0 := ih (fun x hx => h x (by simp [hx]))
    have he := h e (by simp)
    cases e <;> simp_all [lockDepth]

theorem lockDepth_persistBody (fs : Fs) (ts : String) (es : List Entry) :
    lockDepth (persistBodyEvents fs ts es) = 0 := by
  induction es with
  | nil => rfl
  | cons e rest ih =>
    unfold persistBodyEvents
    cases getmtime fs e.path <;> simp [lockDepth, ih]

theorem commitCount_append (l1 l2 : List Ev) :
    commitCount (l1 ++ l2) = commitCount l1 + commitCount l2 := by
  induction l1 with
  | nil => simp [commitCount]
  | cons e t ih => cases e <;> simp [commitCount, ih] <;> omega

theorem commitCount_persistBody (fs : Fs) (ts : String) : ∀ (es : List Entry),
    (∀ e ∈ es, (getmtime fs e.path).isSome) →
    commitCount (persistBodyEvents fs ts es) = 1 := by
  intro es
  induction es with
  | nil => intro _; rfl
  | cons e rest ih =>
    intro hex
    obtain ⟨m, hm⟩ := Option.isSome_iff_exists.mp (hex e (by simp))
    unfold persistBodyEvents
    rw [hm]
    simpa [commitCount] using ih (fun x hx => hex x (by simp [hx]))

theorem durable_applyEv (s : TxState) (e : Ev) (h : e ≠ Ev.commit) :
    (applyEv s e).durable = s.durable := by
  cases e <;> first | rfl | exact absurd rfl h

theorem durable_of_no_commit : ∀ (l : List Ev) (s : TxState), Ev.commit ∉ l →
    (applyEvs s l).durable = s.durable := by
  intro l
  induction l with
  | nil => intro s _; rfl
  | cons e t ih =>
    intro s h
    have he : e ≠ Ev.commit := fun hh => h (by simp [hh])
    have ht : Ev.commit ∉ t := fun hh => h (by simp [hh])
    calc (applyEvs s (e :: t)).durable
        = (applyEvs (applyEv s e) t).durable := rfl
      _ = (applyEv s e).durable := ih _ ht
      _ = s.durable := durable_applyEv _ _ he

theorem applyEvs_append (s : TxState) (l1 l2 : List Ev) :
    applyEvs s (l1 ++ l2) = applyEvs (applyEvs s l1) l2 :=
  List.foldl_append _ _ _ _

theorem applyEvs_persistBody (fs : Fs) (ts : String) : ∀ (es : List Entry)
    (d s : IntegrityDB), (∀ e ∈ es, (getmtime fs e.path).isSome) →
    ∃ db1, persistResults fs ts s es = Except.ok db1 ∧
      applyEvs ⟨d, s⟩ (persistBodyEvents fs ts es) = ⟨db1, db1⟩ := by
  intro es
  induction es with
  | nil => intro d s _; exact ⟨s, rfl, rfl⟩
  | cons e rest ih =>
    intro d s hex
    obtain ⟨m, hm⟩ := Option.isSome_iff_exists.mp (hex e (by simp))
    cases hok : e.ok
    · obtain ⟨db1, h1, h2⟩ := ih d
        ⟨aerase s.passed e.path, aerase s.failed e.path ++ [(e.path, ⟨m, statusStr false, ts⟩)]⟩
        (fun x hx => hex x (by simp [hx]))
      refine ⟨db1, ?_, ?_⟩
      · unfold persistResults persistRow
        rw [hm]
        simp only [hok, Bool.false_eq_true, if_false]
        exact h1
      · unfold persistBodyEvents
        rw [hm, hok]
        show applyEvs (applyEv (applyEv (applyEv ⟨d, s⟩ (Ev.del "passed_files" e.path))
          (Ev.del "failed_files" e.path)) (Ev.ins "failed_files" e.path
            ⟨m, statusStr false, ts⟩)) (persistBodyEvents fs ts rest) = _
        have hstep : applyEv (applyEv (applyEv (⟨d, s⟩ : TxState) (Ev.del "passed_files" e.path))
            (Ev.del "failed_files" e.path)) (Ev.ins "failed_files" e.path
              ⟨m, statusStr false, ts⟩)
            = (⟨d, ⟨aerase s.passed e.path,
                aerase s.failed e.path ++ [(e.path, ⟨m, statusStr false, ts⟩)]⟩⟩ : TxState) := by
          simp [applyEv, applyTable]
        rw [hstep]
        exact h2
    · obtain ⟨db1, h1, h2⟩ := ih d
        ⟨aerase s.passed e.path ++ [(e.path, ⟨m, statusStr true, ts⟩)], aerase s.failed e.path⟩
        (fun x hx => hex x (by simp [hx]))
      refine ⟨db1, ?_, ?_⟩
      · unfold persistResults persistRow
        rw [hm]
        simp only [hok, if_true]
        exact h1
      · unfold persistBodyEvents
        rw [hm, hok]
        show applyEvs (applyEv (applyEv (applyEv ⟨d, s⟩ (Ev.del "passed_files" e.path))
          (Ev.del "failed_files" e.path)) (Ev.ins "passed_files" e.path
            ⟨m, statusStr true, ts⟩)) (persistBodyEvents fs ts rest) = _
        have hstep : applyEv (applyEv (applyEv (⟨d, s⟩ : TxState) (Ev.del "passed_files" e.path))
            (Ev.del "failed_files" e.path)) (Ev.ins "passed_files" e.path
              ⟨m, statusStr true, ts⟩)
            = (⟨d, ⟨aerase s.passed e.path ++ [(e.path, ⟨m, statusStr true, ts⟩)],
                aerase s.failed e.path⟩⟩ : TxState) := by
          simp [applyEv, applyTable]
        rw [hstep]
        exact h2

theorem countP_map_congr {α β : Type} (l : List α) (g h : α → β) (p : β → Bool)
    (hp : ∀ x ∈ l, p (g x) = p (h x)) : (l.map g).countP p = (l.map h).countP p := by
  induction l with
  | nil => rfl
  | cons a t ih =>
    simp only [List.map_cons, List.countP_cons, hp a (by simp),
      ih (fun x hx => hp x (by simp [hx]))]

theorem sum_map_zero {α : Type} (l : List α) (g : α → Nat)
    (h : ∀ x ∈ l, g x = 0) : (l.map g).sum = 0 := by
  induction l with
  | nil => rfl
  | cons a t ih =>
    simp [h a (by simp), ih (fun x hx => h x (by simp [hx]))]

theorem okCount_add_errCount (l : List Entry) : okCount l + errCount l = l.length := by
  induction l with
  | nil => rfl
  | cons e t ih =>
    simp only [okCount, errCount, List.countP_cons, List.length_cons] at *
    cases he : e.ok <;> simp [he] <;> omega

/-- C2: for every file that has a stored row and no force-recheck flag, if the
stored mtime equals the file's current mtime then determine_action returns
USE_CACHED with the stored status, and process_file makes zero ffmpeg invocations
for that file. -/
theorem mtimeMatch_useCached_noProbe (beh : FFBeh) (fs : Fs) (db : IntegrityDB)
    (f : String) (m : Int) (row : Row) (hm : getmtime fs f = some m)
    (hr : lookupRow db f = some row) (heq : row.mtime = m) :
    determineAction fs db f false = (CacheAction.useCached, some row.status, some m) ∧
    (processFile beh fs db false f).2 = 0 :=
  ⟨determineAction_cached fs db f m row hm hr heq,
    (entryFor_cached beh fs db f m row hm hr heq).2.1⟩

/-- Witness for C2 at a concrete store, filesystem and ffmpeg oracle. -/
theorem mtimeMatch_useCached_noProbe_witness :
    getmtime [("a.flac", (100 : Int))] "a.flac" = some 100 ∧
    lookupRow ⟨[("a.flac", ⟨100, "PASSED", "t0"⟩)], []⟩ "a.flac"
      = some ⟨100, "PASSED", "t0"⟩ ∧
    (determineAction [("a.flac", 100)] ⟨[("a.flac", ⟨100, "PASSED", "t0"⟩)], []⟩
        "a.flac" false = (CacheAction.useCached, some "PASSED", some 100) ∧
      (processFile (fun _ => FFRun.runs "" 0) [("a.flac", 100)]
        ⟨[("a.flac", ⟨100, "PASSED", "t0"⟩)], []⟩ false "a.flac").2 = 0) :=
  ⟨rfl, rfl, mtimeMatch_useCached_noProbe (fun _ => FFRun.runs "" 0) [("a.flac", 100)]
    ⟨[("a.flac", ⟨100, "PASSED", "t0"⟩)], []⟩ "a.flac" 100 ⟨100, "PASSED", "t0"⟩ rfl rfl rfl⟩

/-- C3 counterexample: a stored row for "a.flac" with mtime 100, current mtime 200,
and a current content whose hash equals the digest of the content previously hashed
(identical bytes).  determine_action nevertheless returns RUN_FFMPEG with the stored
status dropped: the decision engine has no UpdateMtimeOnly action and consults no
content hash (the integrity tables track none); calculate_file_hash lives only in the
separate database listing module. -/
theorem mtimeDrift_runsFresh_counterexample :
    determineAction [("a.flac", 200)] ⟨[("a.flac", ⟨100, "PASSED", "t0"⟩)], []⟩
      "a.flac" false = (CacheAction.runFFmpeg, none, some 200) ∧
    calculateFileHash (fun s => s) [("a.flac", "bytes")] "a.flac" = some "bytes" :=
  ⟨rfl, rfl⟩

/-- C3 amended: for every file with a stored row, no force flag, and a current mtime
differing from the stored one, the decision is always RUN_FFMPEG (a fresh check with
no status preserved) regardless of file content — the code has no hash fallback and
no UpdateMtimeOnly action. -/
theorem mtimeDrift_alwaysFreshCheck (fs : Fs) (db : IntegrityDB) (f : String)
    (m : Int) (row : Row) (hm : getmtime fs f = some m)
    (hr : lookupRow db f = some row) (hne : row.mtime ≠ m) :
    determineAction fs db f false = (CacheAction.runFFmpeg, none, some m) :=
  determineAction_fresh fs db f m row hm hr hne

/-- Witness for the amended C3 at a concrete store and filesystem. -/
theorem mtimeDrift_alwaysFreshCheck_witness :
    getmtime [("a.flac", (200 : Int))] "a.flac" = some 200 ∧
    lookupRow ⟨[("a.flac", ⟨100, "PASSED", "t0"⟩)], []⟩ "a.flac"
      = some ⟨100, "PASSED", "t0"⟩ ∧
    ((100 : Int) ≠ 200) ∧
    determineAction [("a.flac", 200)] ⟨[("a.flac", ⟨100, "PASSED", "t0"⟩)], []⟩
      "a.flac" false = (CacheAction.runFFmpeg, none, some 200) :=
  ⟨rfl, rfl, by decide, mtimeDrift_alwaysFreshCheck [("a.flac", 200)]
    ⟨[("a.flac", ⟨100, "PASSED", "t0"⟩)], []⟩ "a.flac" 200 ⟨100, "PASSED", "t0"⟩
    rfl rfl (by decide)⟩

/-- C5 (code bug): on a file absent from disk the decision is FILE_NOT_FOUND, but
process_file's fallback branch returns a four-element ('ERROR', "Unknown action",
path, None) tuple, and check_integrity's five-name unpacking of it raises a
ValueError that aborts the whole batch — the file is neither quietly excluded nor
cleaned up (check_integrity never calls cleanup_database). -/
theorem missingFile_crashes_batch :
    determineAction [] ⟨[], []⟩ "ghost.flac" false
      = (CacheAction.fileNotFound, none, none) ∧
    (processFile (fun _ => FFRun.runs "" 0) [] ⟨[], []⟩ false "ghost.flac").1.length = 4 ∧
    checkIntegrityRun (fun _ => FFRun.runs "" 0) [] "t0" ⟨[], []⟩ ["ghost.flac"]
      = Except.error "ValueError: not enough values to unpack (expected 5, got 4)" :=
  ⟨rfl, rfl, rfl⟩

/-- C6 counterexample: the check subcommand registers no --recheck argument at all
(the metadata subcommand does), so the claim's quantification over every subcommand
of the CLI surface fails at the check command — its cache can never be bypassed from
the command line. -/
theorem check_command_lacks_recheck_flag :
    "--recheck" ∉ checkCommandArguments ∧ "--recheck" ∈ metadataCommandArguments := by
  decide

/-- C6 amended: both decision engines bypass the cache unconditionally when
force_recheck is set, even when the stored row's mtime matches (integrity returns
RUN_FFMPEG, metadata returns EXTRACT_METADATA); but only the metadata subcommand
exposes a --recheck flag — the check subcommand registers none and always calls
process_file with force_recheck at its default False. -/
theorem force_recheck_bypasses_cache (fs : Fs) (db : IntegrityDB)
    (mdb : List (String × Int)) (f : String) (m : Int) (row : Row) (lc : Int)
    (hm : getmtime fs f = some m) (hr : lookupRow db f = some row)
    (heq : row.mtime = m) (hmeta : alookup mdb f = some lc) :
    determineAction fs db f true = (CacheAction.runFFmpeg, none, some m) ∧
    determineActionMeta fs mdb f true = (MetaAction.extractMetadata, some m) ∧
    "--recheck" ∈ metadataCommandArguments ∧ "--recheck" ∉ checkCommandArguments := by
  refine ⟨determineAction_force fs db f m hm, ?_, by decide, by decide⟩
  simp [determineActionMeta, hm, hmeta]

/-- Witness for the amended C6 at a concrete store and filesystem. -/
theorem force_recheck_bypasses_cache_witness :
    getmtime [("a.flac", (100 : Int))] "a.flac" = some 100 ∧
    lookupRow ⟨[("a.flac", ⟨100, "PASSED", "t0"⟩)], []⟩ "a.flac"
      = some ⟨100, "PASSED", "t0"⟩ ∧
    alookup [("a.flac", (150 : Int))] "a.flac" = some 150 ∧
    (determineAction [("a.flac", 100)] ⟨[("a.flac", ⟨100, "PASSED", "t0"⟩)], []⟩
        "a.flac" true = (CacheAction.runFFmpeg, none, some 100) ∧
      determineActionMeta [("a.flac", 100)] [("a.flac", 150)] "a.flac" true
        = (MetaAction.extractMetadata, some 100) ∧
      "--recheck" ∈ metadataCommandArguments ∧ "--recheck" ∉ checkCommandArguments) :=
  ⟨rfl, rfl, rfl, force_recheck_bypasses_cache [("a.flac", 100)]
    ⟨[("a.flac", ⟨100, "PASSED", "t0"⟩)], []⟩ [("a.flac", 150)] "a.flac" 100
    ⟨100, "PASSED", "t0"⟩ 150 rfl rfl rfl rfl⟩

/-- C9: the batch writer deletes each result's path from both tables before
inserting its single fresh row, so cross-table uniqueness (no path with live rows
in both passed_files and failed_files) is maintained by every successful persist. -/
theorem persist_preserves_cross_table_uniqueness (fs : Fs) (ts : String)
    (es : List Entry) (db db' : IntegrityDB) (hdb : crossDisjoint db)
    (h : persistResults fs ts db es = Except.ok db') : crossDisjoint db' :=
  persistResults_crossDisjoint fs ts es db db' hdb h

/-- Witness for C9 at a concrete store persisting one failed result. -/
theorem persist_preserves_cross_table_uniqueness_witness :
    crossDisjoint ⟨[("a.flac", ⟨100, "PASSED", "t0"⟩)], []⟩ ∧
    persistResults [("a.flac", 100)] "t1" ⟨[("a.flac", ⟨100, "PASSED", "t0"⟩)], []⟩
      [⟨"a.flac", false, "boom"⟩] = Except.ok ⟨[], [("a.flac", ⟨100, "FAILED", "t1"⟩)]⟩ ∧
    crossDisjoint ⟨[], [("a.flac", ⟨100, "FAILED", "t1"⟩)]⟩ :=
  ⟨fun _ _ => rfl, rfl,
    persist_preserves_cross_table_uniqueness [("a.flac", 100)] "t1"
      [⟨"a.flac", false, "boom"⟩] ⟨[("a.flac", ⟨100, "PASSED", "t0"⟩)], []⟩
      ⟨[], [("a.flac", ⟨100, "FAILED", "t1"⟩)]⟩ (fun _ _ => rfl) rfl⟩

/-- C10: for every file whose cached integrity status is FAILED, the UseCached path
builds a result entry with ok = false and an empty error string — the stored row has
no column for the original diagnostic, so cached failures always report an empty
error in verbose output and the errors listing. -/
theorem cached_failure_empty_error (beh : FFBeh) (fs : Fs) (db : IntegrityDB)
    (f : String) (m : Int) (row : Row) (hm : getmtime fs f = some m)
    (hr : lookupRow db f = some row) (heq : row.mtime = m)
    (hst : row.status = "FAILED") :
    collectStep (processFile beh fs db false f).1 = Except.ok (some ⟨f, false, ""⟩) := by
  have h := (entryFor_cached beh fs db f m row hm hr heq).2.2
  rw [hst] at h
  exact h

/-- Witness for C10 at a concrete store holding a cached FAILED row. -/
theorem cached_failure_empty_error_witness :
    getmtime [("a.flac", (100 : Int))] "a.flac" = some 100 ∧
    lookupRow ⟨[], [("a.flac", ⟨100, "FAILED", "t0"⟩)]⟩ "a.flac"
      = some ⟨100, "FAILED", "t0"⟩ ∧
    collectStep (processFile (fun _ => FFRun.runs "" 0) [("a.flac", 100)]
        ⟨[], [("a.flac", ⟨100, "FAILED", "t0"⟩)]⟩ false "a.flac").1
      = Except.ok (some ⟨"a.flac", false, ""⟩) :=
  ⟨rfl, rfl, cached_failure_empty_error (fun _ => FFRun.runs "" 0) [("a.flac", 100)]
    ⟨[], [("a.flac", ⟨100, "FAILED", "t0"⟩)]⟩ "a.flac" 100 ⟨100, "FAILED", "t0"⟩
    rfl rfl rfl rfl⟩

/-- C7: the validation call is bounded by the hard 30-second per-file timeout — a
run exceeding it becomes the FAILED "FFmpeg timed out" result and any exception
becomes a FAILED result carrying its message, never a crash — and a batch over
files present on disk always completes with ok + error counts summing to the total,
whatever the tool does on each file. -/
theorem perFile_timeout_and_batch_completes :
    (∀ (beh : FFBeh) (f stderr : String) (secs : Nat), beh f = FFRun.runs stderr secs →
      ffmpegTimeout < secs → checkSingleFile beh f = ("FAILED", "FFmpeg timed out", f)) ∧
    (∀ (beh : FFBeh) (f msg : String), beh f = FFRun.raises msg →
      checkSingleFile beh f = ("FAILED", msg, f)) ∧
    (∀ (beh : FFBeh) (fs : Fs) (ts : String) (db : IntegrityDB) (files : List String),
      (∀ f ∈ files, (getmtime fs f).isSome) →
      ∃ out, checkIntegrityRun beh fs ts db files = Except.ok out ∧
        okCount out.results + errCount out.results = out.results.length ∧
        out.results.length = files.length) := by
  refine ⟨?_, ?_, ?_⟩
  · intro beh f stderr secs hb ht
    simp [checkSingleFile, hb, ht]
  · intro beh f msg hb
    simp [checkSingleFile, hb]
  · intro beh fs ts db files hex
    have hrl := runLoop_ok beh fs db files hex
    have hexE : ∀ e ∈ files.map (entryFor beh fs db), (getmtime fs e.path).isSome := by
      intro e he
      obtain ⟨f, hf, rfl⟩ := List.mem_map.mp he
      obtain ⟨m, hm⟩ := Option.isSome_iff_exists.mp (hex f hf)
      rw [(entryFor_path beh fs db f m hm).1, hm]
      rfl
    obtain ⟨db1, hps⟩ := persistResults_ok fs ts (files.map (entryFor beh fs db)) db hexE
    refine ⟨⟨files.map (entryFor beh fs db), db1, (files.map (callsFor beh fs db)).sum⟩,
      ?_, okCount_add_errCount _, by simp⟩
    unfold checkIntegrityRun
    rw [hrl]
    show (match persistResults fs ts db (files.map (entryFor beh fs db)) with
      | Except.error e => (Except.error e : Except String RunOut)
      | Except.ok d1 => Except.ok (RunOut.mk (files.map (entryFor beh fs db)) d1
          ((files.map (callsFor beh fs db)).sum))) = _
    rw [hps]

/-- Witness for C7: a tool that would run for 60 seconds (past the timeout), a tool
that raises, and a one-file batch over that hanging tool which still completes. -/
theorem perFile_timeout_and_batch_completes_witness :
    checkSingleFile (fun _ => FFRun.runs "x" 60) "a.flac"
      = ("FAILED", "FFmpeg timed out", "a.flac") ∧
    checkSingleFile (fun _ => FFRun.raises "boom") "a.flac" = ("FAILED", "boom", "a.flac") ∧
    ∃ out, checkIntegrityRun (fun _ => FFRun.runs "x" 60) [("a.flac", 100)] "t0"
        ⟨[], []⟩ ["a.flac"] = Except.ok out ∧
      okCount out.results + errCount out.results = out.results.length ∧
      out.results.length = ["a.flac"].length :=
  ⟨perFile_timeout_and_batch_completes.1 (fun _ => FFRun.runs "x" 60) "a.flac" "x" 60
      rfl (by decide),
    perFile_timeout_and_batch_completes.2.1 (fun _ => FFRun.raises "boom") "a.flac"
      "boom" rfl,
    perFile_timeout_and_batch_completes.2.2 (fun _ => FFRun.runs "x" 60)
      [("a.flac", 100)] "t0" ⟨[], []⟩ ["a.flac"] (by decide)⟩

theorem lockDepth_metaDecision (fs : Fs) (f : String) :
    lockDepth (determineActionMetaEvents fs f) = 0 := by
  unfold determineActionMetaEvents
  cases getmtime fs f <;> rfl

theorem lockDepth_metaVerbose (fs : Fs) (mdb : List (String × Int))
    (extractErr : String → Bool) (force : Bool) : ∀ files : List String,
    lockDepth (collectMetadataVerboseEvents fs mdb extractErr force files) = 0 := by
  intro files
  induction files with
  | nil => rfl
  | cons f rest ih =>
    unfold collectMetadataVerboseEvents
    rw [lockDepth_append, lockDepth_append, lockDepth_metaDecision, ih]
    rcases hda : determineActionMeta fs mdb f force with ⟨act, om⟩
    cases act <;> simp [lockDepth]
    cases extractErr f <;> rfl

theorem lockDepth_cleanup (sqlOk : Bool) (fs : Fs) (db : IntegrityDB) :
    lockDepth (cleanupEvents sqlOk fs db) = 0 := by
  unfold cleanupEvents
  cases sqlOk
  · rfl
  · have h1 : lockDepth ((db.passed.filter (fun pr => (getmtime fs pr.1).isNone)).map
        (fun pr => Ev.del "passed_files" pr.1)) = 0 := by
      apply lockDepth_noLocks
      intro e he
      obtain ⟨x, _, rfl⟩ := List.mem_map.mp he
      exact ⟨by simp, by simp⟩
    have h2 : lockDepth ((db.failed.filter (fun pr => (getmtime fs pr.1).isNone)).map
        (fun pr => Ev.del "failed_files" pr.1)) = 0 := by
      apply lockDepth_noLocks
      intro e he
      obtain ⟨x, _, rfl⟩ := List.mem_map.mp he
      exact ⟨by simp, by simp⟩
    simp [lockDepth, lockDepth_append, h1, h2]

theorem lockDepth_determineGuarded (sqlOk : Bool) (fs : Fs) (db : IntegrityDB)
    (f : String) (force : Bool) :
    lockDepth (determineActionGuarded sqlOk fs db f force).1 = 0 := by
  unfold determineActionGuarded
  cases force
  · cases getmtime fs f
    · rfl
    · cases sqlOk
      · rfl
      · cases alookup db.passed f <;> rfl
  · rfl

theorem lockDepth_trackFile (sqlOk : Bool) (fs : Fs) (tdb : List (String × Int))
    (f : String) : lockDepth (trackFileGuarded sqlOk fs tdb f).1 = 0 := by
  unfold trackFileGuarded
  cases getmtime fs f with
  | none => rfl
  | some m =>
    cases sqlOk
    · rfl
    · cases alookup tdb f with
      | none => rfl
      | some sm => by_cases h : sm = m <;> simp [h, lockDepth]

theorem lockDepth_integrityWriter (fs : Fs) (ts : String) (es : List Entry) :
    lockDepth (checkIntegrityWriteEvents fs ts es) = 0 := by
  unfold checkIntegrityWriteEvents
  simp [lockDepth, lockDepth_append, lockDepth_persistBody]

/-- C4: every acquisition of the advisory lock is paired with a release on every
exit path of the guarded critical section — normal return, early return, or a
sqlite exception raised inside the try block — for determine_action, the batch
writer, cleanup_database, track_file, and the metadata verbose loop: each trace
leaves the lock depth at zero. -/
theorem lock_released_on_all_paths (sqlOk force : Bool) (fs : Fs) (db : IntegrityDB)
    (tdb mdb : List (String × Int)) (f ts : String) (es : List Entry)
    (extractErr : String → Bool) (files : List String) :
    lockDepth (determineActionGuarded sqlOk fs db f force).1 = 0 ∧
    lockDepth (checkIntegrityWriteEvents fs ts es) = 0 ∧
    lockDepth (cleanupEvents sqlOk fs db) = 0 ∧
    lockDepth (trackFileGuarded sqlOk fs tdb f).1 = 0 ∧
    lockDepth (collectMetadataVerboseEvents fs mdb extractErr force files) = 0 :=
  ⟨lockDepth_determineGuarded sqlOk fs db f force,
    lockDepth_integrityWriter fs ts es,
    lockDepth_cleanup sqlOk fs db,
    lockDepth_trackFile sqlOk fs tdb f,
    lockDepth_metaVerbose fs mdb extractErr force files⟩

/-- C1 counterexample: a metadata batch run in verbose mode over two files needing
fresh extraction commits once per file — two commits inside one batch run, each in
its own locked section — and neither the verbose path nor the concurrent batch path
ever backs up the store file, contradicting the claimed once-per-batch backed-up
persist for every batch run. -/
theorem metadataWriter_commitsPerFile_noBackup :
    commitCount (collectMetadataVerboseEvents [("a.flac", 100), ("b.flac", 100)] []
      (fun _ => false) false ["a.flac", "b.flac"]) = 2 ∧
    Ev.backup ∉ collectMetadataVerboseEvents [("a.flac", 100), ("b.flac", 100)] []
      (fun _ => false) false ["a.flac", "b.flac"] ∧
    Ev.backup ∉ collectMetadataBatchWriteEvents ["a.flac", "b.flac"] :=
  ⟨rfl, by decide, by decide⟩

/-- C1 amended: the integrity check's batch writer does satisfy the claim — it takes
the lock once per batch, backs up the store first, performs all deletes and reinserts
inside one transaction with exactly one commit (when every result's file still
exists), no durable change is visible at any point before the commit event, and the
durable state after the trace is exactly the delete-and-reinsert loop's outcome.
The metadata collector's writers do not: they take no backup, and in verbose mode
commit once per file. -/
theorem integrityBatchWriter_singleCommit_atomic (fs : Fs) (ts : String)
    (db : IntegrityDB) (es : List Entry)
    (hex : ∀ e ∈ es, (getmtime fs e.path).isSome) :
    commitCount (checkIntegrityWriteEvents fs ts es) = 1 ∧
    (∃ l, checkIntegrityWriteEvents fs ts es = Ev.acquire :: Ev.backup :: l) ∧
    (∀ p q, checkIntegrityWriteEvents fs ts es = p ++ q → Ev.commit ∉ p →
      (applyEvs ⟨db, db⟩ p).durable = db) ∧
    (∃ db1, persistResults fs ts db es = Except.ok db1 ∧
      (applyEvs ⟨db, db⟩ (checkIntegrityWriteEvents fs ts es)).durable = db1) := by
  refine ⟨?_, ⟨_, rfl⟩, ?_, ?_⟩
  · unfold checkIntegrityWriteEvents
    simp [commitCount, commitCount_append, commitCount_persistBody fs ts es hex]
  · intro p q _ hp
    exact durable_of_no_commit p ⟨db, db⟩ hp
  · obtain ⟨db1, h1, h2⟩ := applyEvs_persistBody fs ts es db db hex
    refine ⟨db1, h1, ?_⟩
    show (applyEvs ⟨db, db⟩ (persistBodyEvents fs ts es ++ [Ev.release])).durable = db1
    rw [applyEvs_append, h2]
    rfl

/-- Witness for the amended C1: one passed result over an existing file. -/
theorem integrityBatchWriter_singleCommit_atomic_witness :
    (∀ e ∈ [(⟨"a.flac", true, ""⟩ : Entry)],
      (getmtime [("a.flac", (100 : Int))] e.path).isSome) ∧
    (commitCount (checkIntegrityWriteEvents [("a.flac", 100)] "t1"
        [⟨"a.flac", true, ""⟩]) = 1 ∧
      (∃ l, checkIntegrityWriteEvents [("a.flac", 100)] "t1" [⟨"a.flac", true, ""⟩]
        = Ev.acquire :: Ev.backup :: l) ∧
      (∀ p q, checkIntegrityWriteEvents [("a.flac", 100)] "t1" [⟨"a.flac", true, ""⟩]
        = p ++ q → Ev.commit ∉ p →
        (applyEvs ⟨⟨[], []⟩, ⟨[], []⟩⟩ p).durable = ⟨[], []⟩) ∧
      (∃ db1, persistResults [("a.flac", 100)] "t1" ⟨[], []⟩ [⟨"a.flac", true, ""⟩]
          = Except.ok db1 ∧
        (applyEvs ⟨⟨[], []⟩, ⟨[], []⟩⟩ (checkIntegrityWriteEvents [("a.flac", 100)]
          "t1" [⟨"a.flac", true, ""⟩])).durable = db1)) :=
  ⟨by decide, integrityBatchWriter_singleCommit_atomic [("a.flac", 100)] "t1"
    ⟨[], []⟩ [⟨"a.flac", true, ""⟩] (by decide)⟩

theorem entries_exist (beh : FFBeh) (fs : Fs) (db : IntegrityDB) (files : List String)
    (hex : ∀ f ∈ files, (getmtime fs f).isSome) :
    ∀ e ∈ files.map (entryFor beh fs db), (getmtime fs e.path).isSome := by
  intro e he
  obtain ⟨f, hf, rfl⟩ := List.mem_map.mp he
  obtain ⟨m, hm⟩ := Option.isSome_iff_exists.mp (hex f hf)
  rw [(entryFor_path beh fs db f m hm).1, hm]
  rfl

theorem entryFor_paths (beh : FFBeh) (fs : Fs) (db : IntegrityDB) (files : List String)
    (hex : ∀ f ∈ files, (getmtime fs f).isSome) :
    (files.map (entryFor beh fs db)).map Entry.path = files := by
  rw [List.map_map]
  have h : ∀ f ∈ files, (Entry.path ∘ entryFor beh fs db) f = id f := by
    intro f hf
    obtain ⟨m, hm⟩ := Option.isSome_iff_exists.mp (hex f hf)
    exact (entryFor_path beh fs db f m hm).1
  rw [List.map_congr_left h, List.map_id]

theorem checkIntegrityRun_eq (beh : FFBeh) (fs : Fs) (ts : String) (db : IntegrityDB)
    (files : List String) (hex : ∀ f ∈ files, (getmtime fs f).isSome)
    (db1 : IntegrityDB)
    (hps : persistResults fs ts db (files.map (entryFor beh fs db)) = Except.ok db1) :
    checkIntegrityRun beh fs ts db files
      = Except.ok ⟨files.map (entryFor beh fs db), db1,
          (files.map (callsFor beh fs db)).sum⟩ := by
  unfold checkIntegrityRun
  rw [runLoop_ok beh fs db files hex]
  show (match persistResults fs ts db (files.map (entryFor beh fs db)) with
    | Except.error e => (Except.error e : Except String RunOut)
    | Except.ok d1 => Except.ok (RunOut.mk (files.map (entryFor beh fs db)) d1
        ((files.map (callsFor beh fs db)).sum))) = _
  rw [hps]

/-- C8 amended: running the integrity check command twice with no filesystem
change in between (all target files present, targets distinct) makes the second
run invoke ffmpeg zero times, take the UseCached decision for every file, and
report exactly the same summary counts (total, ok, error) as the first run.  The
metadata command does not satisfy the original claim: its Extracted/Cached summary
counts swap between runs, files failing extraction are never persisted so their
second-run decision is again ExtractMetadata, and a tag-failing .m4a re-invokes
ffprobe on the second run. -/
theorem second_run_cached_and_counts_equal (beh : FFBeh) (fs : Fs) (ts1 ts2 : String)
    (db : IntegrityDB) (files : List String) (out1 out2 : RunOut)
    (hex : ∀ f ∈ files, (getmtime fs f).isSome) (hnd : files.Nodup)
    (h1 : checkIntegrityRun beh fs ts1 db files = Except.ok out1)
    (h2 : checkIntegrityRun beh fs ts2 out1.dbAfter files = Except.ok out2) :
    out2.ffmpegCalls = 0 ∧
    out2.results.length = out1.results.length ∧
    okCount out2.results = okCount out1.results ∧
    errCount out2.results = errCount out1.results ∧
    ∀ f ∈ files, (determineAction fs out1.dbAfter f false).1 = CacheAction.useCached := by
  have hexE1 := entries_exist beh fs db files hex
  obtain ⟨db1, hps1⟩ := persistResults_ok fs ts1 (files.map (entryFor beh fs db)) db hexE1
  have hrun1 := checkIntegrityRun_eq beh fs ts1 db files hex db1 hps1
  rw [hrun1] at h1
  injection h1 with h1
  have hndE : ((files.map (entryFor beh fs db)).map Entry.path).Nodup := by
    rw [entryFor_paths beh fs db files hex]
    exact hnd
  have key : ∀ f ∈ files,
      entryFor beh fs db1 f = ⟨f, (entryFor beh fs db f).ok, ""⟩ ∧
      callsFor beh fs db1 f = 0 ∧
      (determineAction fs db1 f false).1 = CacheAction.useCached := by
    intro f hf
    obtain ⟨m, hm⟩ := Option.isSome_iff_exists.mp (hex f hf)
    have hmE : getmtime fs (entryFor beh fs db f).path = some m := by
      rw [(entryFor_path beh fs db f m hm).1]
      exact hm
    have hlk := persistResults_touched fs ts1 (files.map (entryFor beh fs db)) db db1
      hps1 hndE (entryFor beh fs db f) (List.mem_map_of_mem _ hf) m hmE
    rw [(entryFor_path beh fs db f m hm).1] at hlk
    have hda := determineAction_cached fs db1 f m
      ⟨m, statusStr (entryFor beh fs db f).ok, ts1⟩ hm hlk rfl
    obtain ⟨he1, he2, _⟩ := entryFor_cached beh fs db1 f m
      ⟨m, statusStr (entryFor beh fs db f).ok, ts1⟩ hm hlk rfl
    refine ⟨?_, he2, by rw [hda]⟩
    rw [he1]
    simp [statusStr_decide]
  have hexE2 := entries_exist beh fs db1 files hex
  obtain ⟨db2, hps2⟩ := persistResults_ok fs ts2 (files.map (entryFor beh fs db1)) db1 hexE2
  have hdb1 : out1.dbAfter = db1 := by rw [← h1]
  rw [hdb1] at h2
  rw [checkIntegrityRun_eq beh fs ts2 db1 files hex db2 hps2] at h2
  injection h2 with h2
  refine ⟨?_, ?_, ?_, ?_, ?_⟩
  · rw [← h2]
    exact sum_map_zero files (callsFor beh fs db1) (fun f hf => (key f hf).2.1)
  · rw [← h1, ← h2]
    simp
  · rw [← h1, ← h2]
    apply countP_map_congr
    intro f hf
    rw [(key f hf).1]
  · rw [← h1, ← h2]
    apply countP_map_congr
    intro f hf
    rw [(key f hf).1]
  · intro f hf
    rw [hdb1]
    exact (key f hf).2.2

/-- Witness for C8: a one-file batch run twice against an unchanged filesystem. -/
theorem second_run_cached_and_counts_equal_witness :
    (∀ f ∈ ["a.flac"], (getmtime [("a.flac", (100 : Int))] f).isSome) ∧
    (["a.flac"] : List String).Nodup ∧
    checkIntegrityRun (fun _ => FFRun.runs "" 0) [("a.flac", 100)] "t1" ⟨[], []⟩
      ["a.flac"] = Except.ok ⟨[⟨"a.flac", true, ""⟩],
        ⟨[("a.flac", ⟨100, "PASSED", "t1"⟩)], []⟩, 1⟩ ∧
    checkIntegrityRun (fun _ => FFRun.runs "" 0) [("a.flac", 100)] "t2"
      (RunOut.mk [⟨"a.flac", true, ""⟩]
        ⟨[("a.flac", ⟨100, "PASSED", "t1"⟩)], []⟩ 1).dbAfter ["a.flac"]
      = Except.ok ⟨[⟨"a.flac", true, ""⟩],
        ⟨[("a.flac", ⟨100, "PASSED", "t2"⟩)], []⟩, 0⟩ ∧
    ((RunOut.mk [⟨"a.flac", true, ""⟩]
        ⟨[("a.flac", ⟨100, "PASSED", "t2"⟩)], []⟩ 0).ffmpegCalls = 0 ∧
      (RunOut.mk [⟨"a.flac", true, ""⟩]
        ⟨[("a.flac", ⟨100, "PASSED", "t2"⟩)], []⟩ 0).results.length
        = (RunOut.mk [⟨"a.flac", true, ""⟩]
            ⟨[("a.flac", ⟨100, "PASSED", "t1"⟩)], []⟩ 1).results.length ∧
      okCount (RunOut.mk [⟨"a.flac", true, ""⟩]
          ⟨[("a.flac", ⟨100, "PASSED", "t2"⟩)], []⟩ 0).results
        = okCount (RunOut.mk [⟨"a.flac", true, ""⟩]
            ⟨[("a.flac", ⟨100, "PASSED", "t1"⟩)], []⟩ 1).results ∧
      errCount (RunOut.mk [⟨"a.flac", true, ""⟩]
          ⟨[("a.flac", ⟨100, "PASSED", "t2"⟩)], []⟩ 0).results
        = errCount (RunOut.mk [⟨"a.flac", true, ""⟩]
            ⟨[("a.flac", ⟨100, "PASSED", "t1"⟩)], []⟩ 1).results ∧
      ∀ f ∈ (["a.flac"] : List String),
        (determineAction [("a.flac", 100)] (RunOut.mk [⟨"a.flac", true, ""⟩]
          ⟨[("a.flac", ⟨100, "PASSED", "t1"⟩)], []⟩ 1).dbAfter f false).1
          = CacheAction.useCached) :=
  ⟨by decide, by decide, rfl, rfl,
    second_run_cached_and_counts_equal (fun _ => FFRun.runs "" 0) [("a.flac", 100)]
      "t1" "t2" ⟨[], []⟩ ["a.flac"]
      ⟨[⟨"a.flac", true, ""⟩], ⟨[("a.flac", ⟨100, "PASSED", "t1"⟩)], []⟩, 1⟩
      ⟨[⟨"a.flac", true, ""⟩], ⟨[("a.flac", ⟨100, "PASSED", "t2"⟩)], []⟩, 0⟩
      (by decide) (by decide) rfl rfl⟩

/-- C8 counterexample: the metadata batch command falsifies the claim as stated.
(i) For a clean one-file batch the printed summary counts swap between the two runs
(first run: Extracted 1 / Cached 0, second run: Extracted 0 / Cached 1), so the two
runs do not report identical summary counts.  (ii) A file whose extraction reports
an error is never persisted — every .ogg takes extract_metadata's
'Unsupported file type' branch — so the second run's decision for it is
EXTRACT_METADATA again, not UseCached.  (iii) A tag-failing .m4a re-invokes the
external ffprobe on the second run, so the second run makes a nonzero number of
external-tool invocations. -/
theorem metadata_second_run_counterexample :
    (collectMetadataRun ⟨fun _ => 0, fun _ => none⟩ [("a.flac", 100)] 150 [] false
      ["a.flac"]).extractedCount = 1 ∧
    (collectMetadataRun ⟨fun _ => 0, fun _ => none⟩ [("a.flac", 100)] 150 [] false
      ["a.flac"]).cachedCount = 0 ∧
    (collectMetadataRun ⟨fun _ => 0, fun _ => none⟩ [("a.flac", 100)] 200
      (collectMetadataRun ⟨fun _ => 0, fun _ => none⟩ [("a.flac", 100)] 150 [] false
        ["a.flac"]).mdbAfter false ["a.flac"]).extractedCount = 0 ∧
    (collectMetadataRun ⟨fun _ => 0, fun _ => none⟩ [("a.flac", 100)] 200
      (collectMetadataRun ⟨fun _ => 0, fun _ => none⟩ [("a.flac", 100)] 150 [] false
        ["a.flac"]).mdbAfter false ["a.flac"]).cachedCount = 1 ∧
    (collectMetadataRun ⟨fun _ => 0, fun _ => some "Unsupported file type"⟩
      [("b.ogg", 100)] 150 [] false ["b.ogg"]).mdbAfter = [] ∧
    determineActionMeta [("b.ogg", 100)]
      (collectMetadataRun ⟨fun _ => 0, fun _ => some "Unsupported file type"⟩
        [("b.ogg", 100)] 150 [] false ["b.ogg"]).mdbAfter "b.ogg" false
      = (MetaAction.extractMetadata, some 100) ∧
    (collectMetadataRun ⟨fun _ => 1, fun _ => some "tag error"⟩ [("c.m4a", 100)] 200
      (collectMetadataRun ⟨fun _ => 1, fun _ => some "tag error"⟩ [("c.m4a", 100)] 150
        [] false ["c.m4a"]).mdbAfter false ["c.m4a"]).probeCalls = 1 :=
  ⟨rfl, rfl, rfl, rfl, rfl, rfl, rfl⟩
